import Mathlib

/-!
Verification of the block-assembly workspace engine of djzet/block_code.

The development shallowly embeds the canonical class-based variant of the
code (the second half of src/js/index.js, identical to the compiled copy in
src/unnamed/part_001): the three block classes RootBlock / ContainerBlock /
SimpleBlock, the factory Workspace.createBlock, the hit-tester
Workspace.findValidSlot, the sibling-ordering helper Workspace.getInsertAfter,
the drag handlers Workspace.dragging and Workspace.dragEnd, the drop handler
installed by Workspace.setupDrop, and the layout-persistence passes
Workspace.updateDataPercents and Workspace.updatePositions.

Numbers that the page computes with IEEE doubles (pixel coordinates,
percentages) are embedded as exact rationals; the algorithms only use
field arithmetic and comparisons, which the embedding preserves.
DOM primitives consumed by the code are made explicit inputs:
document.elementsFromPoint becomes a list of elements in topmost-first
order, Element.contains becomes the insideDragged field of such an element,
and JSON.parse becomes an oracle returning none exactly when it throws.
-/

namespace BlockCode

/-- The category enum of a block spec.  The source uses the strings
'starts', 'operator', 'variable' and 'event'; since `variable` is a Lean
keyword the last two constructors carry a Cat suffix. -/
inductive Category where
  | starts
  | operator
  | variableCat
  | eventCat
deriving DecidableEq, Fintype

/-- The three block classes: RootBlock, ContainerBlock, SimpleBlock. -/
inductive BlockKind where
  | root
  | container
  | simple
deriving DecidableEq

/-- canAccept, dispatched on the class of the receiving block
(RootBlock.canAccept / ContainerBlock.canAccept / SimpleBlock.canAccept,
src/js/index.js lines 633-635, 654-656, 673-675). -/
def canAccept : BlockKind → Category → Bool
  | BlockKind.root, _ => true
  | BlockKind.container, _ => true
  | BlockKind.simple, _ => false

/-- isMovableToSlot, dispatched on the block class
(src/js/index.js lines 638-640, 659-661, 678-680). -/
def isMovableToSlot : BlockKind → Bool
  | BlockKind.root => false
  | BlockKind.container => true
  | BlockKind.simple => true

/-- The ItemData interface: name, description, category. -/
structure ItemData where
  name : String
  description : String
  category : Category
deriving DecidableEq

/-- Workspace.createBlock (src/js/index.js lines 708-719): the factory that
classifies a spec into one of the three block classes. -/
def createBlock (data : ItemData) : BlockKind :=
  if data.name = "Начало" then BlockKind.root
  else if data.category = Category.starts ∨ data.category = Category.operator then
    BlockKind.container
  else BlockKind.simple

/-- The owning block of a slot element, as recovered by
closest('.workspace-item').blockInstance: its DOM identity and class. -/
structure SlotOwner where
  id : Nat
  kind : BlockKind
deriving DecidableEq

/-- One entry of the list document.elementsFromPoint(x, y) returns, as the
hit-tester inspects it: whether its classList contains 'block-slot', the
block instance owning it (none when no enclosing workspace-item carries an
instance), whether the dragged block's element contains it
(activeBlock.element.contains(htmlEl)), and its DOM identity. -/
structure DomElement where
  isSlot : Bool
  owner : Option SlotOwner
  insideDragged : Bool
  elemId : Nat
deriving DecidableEq

/-- The fields of this.activeBlock that findValidSlot reads. -/
structure DraggedInfo where
  kind : BlockKind
  category : Category
deriving DecidableEq

/-- The for-loop of Workspace.findValidSlot over the element stack
(src/js/index.js lines 825-841): for each element that is a slot, resolve
the owning instance, test canAccept against the dragged block's category,
skip slots contained in the dragged element, return the first survivor. -/
def slotLoop (a : DraggedInfo) : List DomElement → Option DomElement
  | [] => none
  | el :: rest =>
    if el.isSlot then
      match el.owner with
      | some parentInstance =>
        if canAccept parentInstance.kind a.category then
          if el.insideDragged then slotLoop a rest
          else some el
        else slotLoop a rest
      | none => slotLoop a rest
    else slotLoop a rest

/-- Workspace.findValidSlot (src/js/index.js lines 817-843).  The targets
list stands for document.elementsFromPoint(x, y), topmost first. -/
def findValidSlot (activeBlock : Option DraggedInfo) (targets : List DomElement) :
    Option DomElement :=
  match activeBlock with
  | none => none
  | some a =>
    if isMovableToSlot a.kind then slotLoop a targets
    else none

/-- The acceptance test a stack element must pass to be returned by the
hit-tester: it is a slot, its owning block accepts the dragged category,
and it is not inside the dragged element. -/
def validTarget (a : DraggedInfo) (el : DomElement) : Bool :=
  el.isSlot &&
    (match el.owner with
     | some p => canAccept p.kind a.category
     | none => false) &&
    !el.insideDragged

theorem slotLoop_eq_find (a : DraggedInfo) :
    ∀ targets : List DomElement, slotLoop a targets = targets.find? (validTarget a) := by
  intro targets
  induction targets with
  | nil => rfl
  | cons el rest ih =>
    by_cases hs : el.isSlot
    · cases how : el.owner with
      | none =>
        simp [slotLoop, hs, how, ih, List.find?, validTarget]
      | some p =>
        by_cases hacc : canAccept p.kind a.category
        · by_cases hin : el.insideDragged
          · simp [slotLoop, hs, how, hacc, hin, ih, List.find?, validTarget]
          · simp [slotLoop, hs, how, hacc, hin, ih, List.find?, validTarget]
        · simp [slotLoop, hs, how, hacc, ih, List.find?, validTarget]
    · simp [slotLoop, hs, ih, List.find?, validTarget]

/-!
## The nesting forest

Nested blocks physically live inside their parent's slot, so the DOM gives
every block at most one parent block.  We represent this as a partial parent
map on block identities.  A slot element of owner o is contained in the
dragged block's element exactly when o is the dragged block or one of its
descendants, i.e. when the parent chain from o reaches the dragged block.
-/

/-- One step of the parent chain: pstep p a b holds when b is the parent
block of a. -/
def pstep (p : Nat → Option Nat) (a b : Nat) : Prop := p a = some b

/-- The nesting forest has no cycles: no block is a proper ancestor of
itself. -/
def Acyclic (p : Nat → Option Nat) : Prop :=
  ∀ x, ¬ Relation.TransGen (pstep p) x x

/-- The reparenting performed at drag end: inserting the dragged block
child into the slot of block target makes target its parent and changes no
other edge (slot.insertBefore / slot.appendChild, src/js/index.js
lines 796-800). -/
def reparent (p : Nat → Option Nat) (child target : Nat) : Nat → Option Nat :=
  fun x => if x = child then some target else p x

theorem reflTransGen_reparent_split (p : Nat → Option Nat) (d t : Nat) :
    ∀ a b, Relation.ReflTransGen (pstep (reparent p d t)) a b →
      Relation.ReflTransGen (pstep p) a b ∨
        (Relation.ReflTransGen (pstep p) a d ∧
          Relation.ReflTransGen (pstep (reparent p d t)) t b) := by
  intro a b h
  induction h using Relation.ReflTransGen.head_induction_on with
  | refl => exact Or.inl Relation.ReflTransGen.refl
  | head hstep htail ih =>
    rename_i x c
    by_cases hx : x = d
    · subst hx
      have hc : t = c := by simpa [pstep, reparent] using hstep
      subst hc
      exact Or.inr ⟨Relation.ReflTransGen.refl, htail⟩
    · have hp : pstep p x c := by
        simpa [pstep, reparent, hx] using hstep
      rcases ih with h₁ | ⟨h₁, h₂⟩
      · exact Or.inl (Relation.ReflTransGen.head hp h₁)
      · exact Or.inr ⟨Relation.ReflTransGen.head hp h₁, h₂⟩

/-- Reparenting the dragged block d under a target t that is not in d's
subtree keeps the forest acyclic. -/
theorem reparent_acyclic (p : Nat → Option Nat) (d t : Nat)
    (hac : Acyclic p) (hnd : ¬ Relation.ReflTransGen (pstep p) t d) :
    Acyclic (reparent p d t) := by
  intro x hcyc
  obtain ⟨c, hxc, hcx⟩ :
      ∃ c, pstep (reparent p d t) x c ∧
        Relation.ReflTransGen (pstep (reparent p d t)) c x :=
    (Relation.TransGen.head'_iff).mp hcyc
  rcases reflTransGen_reparent_split p d t c x hcx with h₁ | ⟨h₁, h₂⟩
  · -- the tail of the cycle only uses original edges
    by_cases hx : x = d
    · -- the head edge is the new edge d → t, so t reaches d originally
      subst hx
      have hc : t = c := by simpa [pstep, reparent] using hxc
      subst hc
      exact hnd h₁
    · have hp : pstep p x c := by simpa [pstep, reparent, hx] using hxc
      exact hac x (Relation.TransGen.head' hp h₁)
  · -- the tail passes through the new edge: c reaches d, then t reaches x
    rcases reflTransGen_reparent_split p d t t x h₂ with h₃ | ⟨h₃, _⟩
    · by_cases hx : x = d
      · subst hx
        exact hnd h₃
      · have hp : pstep p x c := by simpa [pstep, reparent, hx] using hxc
        exact hnd (h₃.trans (Relation.ReflTransGen.head hp h₁))
    · exact hnd h₃

/-- A parent map whose edges strictly decrease the identity is acyclic;
used to discharge the acyclicity hypothesis on concrete states. -/
theorem acyclic_of_desc (p : Nat → Option Nat)
    (hdesc : ∀ x y, p x = some y → y < x) : Acyclic p := by
  have key : ∀ a b, Relation.TransGen (pstep p) a b → b < a := by
    intro a b h
    induction h with
    | single h₁ => exact hdesc _ _ h₁
    | tail _ h₂ ih => exact lt_trans (hdesc _ _ h₂) ih
  intro x hx
  exact lt_irrefl x (key x x hx)

/-!
## Sibling insertion order

Workspace.getInsertAfter (src/js/index.js lines 877-884) reduces over the
slot's direct non-dragging children, keeping the child with the greatest
offset = y - (box.top + box.height / 2) among those with offset < 0,
starting from offset = NEGATIVE_INFINITY (modelled by a none accumulator).
-/

/-- The bounding box of one direct child of a slot, with its DOM identity. -/
structure ChildBox where
  cid : Nat
  top : Rat
  height : Rat
deriving DecidableEq

/-- The vertical center box.top + box.height / 2 of a child. -/
def centerY (c : ChildBox) : Rat := c.top + c.height / 2

/-- offset > closest.offset, where a none accumulator is the initial
NEGATIVE_INFINITY record. -/
def beats (offset : Rat) : Option (Rat × ChildBox) → Bool
  | none => true
  | some (o, _) => decide (o < offset)

/-- The body of the reduce in getInsertAfter: with
offset = y - centerY child, keep the child when offset < 0 and
offset > closest.offset. -/
def insertStep (y : Rat) (closest : Option (Rat × ChildBox)) (child : ChildBox) :
    Option (Rat × ChildBox) :=
  if decide (y - centerY child < 0) && beats (y - centerY child) closest then
    some (y - centerY child, child)
  else closest

/-- Workspace.getInsertAfter (src/js/index.js lines 877-884). -/
def getInsertAfter (elements : List ChildBox) (y : Rat) : Option ChildBox :=
  (elements.foldl (insertStep y) none).map Prod.snd

/-- slot.insertBefore(dragged, ref): insert d immediately before the child
with DOM identity tid. -/
def insertBeforeId (tid : Nat) (d : ChildBox) : List ChildBox → List ChildBox
  | [] => []
  | c :: rest => if c.cid = tid then d :: c :: rest else c :: insertBeforeId tid d rest

/-- The insertion performed by Workspace.dragEnd on the slot's child list
(src/js/index.js lines 795-800): before the child getInsertAfter found, or
appended at the end when it found none. -/
def insertDragged (l : List ChildBox) (d : ChildBox) (y : Rat) : List ChildBox :=
  match getInsertAfter l y with
  | some c => insertBeforeId c.cid d l
  | none => l ++ [d]

theorem foldl_insertStep_none (y : Rat) :
    ∀ (l : List ChildBox) (acc : Option (Rat × ChildBox)),
      l.foldl (insertStep y) acc = none ↔ acc = none ∧ ∀ c ∈ l, centerY c ≤ y := by
  intro l
  induction l with
  | nil => intro acc; simp
  | cons hd tl ih =>
    intro acc
    have hstep : insertStep y acc hd = none ↔ acc = none ∧ centerY hd ≤ y := by
      cases acc with
      | none =>
        by_cases hlt : y - centerY hd < 0
        · simp [insertStep, beats, hlt]
          linarith
        · simp [insertStep, beats, hlt]
          linarith
      | some a =>
        constructor
        · intro h
          exfalso
          unfold insertStep at h
          split at h
          · exact Option.noConfusion h
          · exact Option.noConfusion h
        · rintro ⟨h, -⟩
          exact absurd h (by simp)
    rw [List.foldl_cons, ih, hstep]
    constructor
    · rintro ⟨⟨h₁, h₂⟩, h₃⟩
      refine ⟨h₁, ?_⟩
      intro c hc
      rcases List.mem_cons.mp hc with rfl | hc
      · exact h₂
      · exact h₃ c hc
    · rintro ⟨h₁, h₂⟩
      exact ⟨⟨h₁, h₂ hd (List.mem_cons_self hd tl)⟩, fun c hc => h₂ c (List.mem_cons_of_mem hd hc)⟩

theorem foldl_insertStep_some (y : Rat) :
    ∀ (l : List ChildBox) (acc : Option (Rat × ChildBox)),
      (∀ o₀ c₀, acc = some (o₀, c₀) → o₀ = y - centerY c₀ ∧ o₀ < 0) →
      ∀ o c, l.foldl (insertStep y) acc = some (o, c) →
        (o = y - centerY c ∧ o < 0) ∧
        (acc = some (o, c) ∨ c ∈ l) ∧
        (∀ e ∈ l, y - centerY e < 0 → y - centerY e ≤ o) ∧
        (∀ o₀ c₀, acc = some (o₀, c₀) → o₀ ≤ o) := by
  intro l
  induction l with
  | nil =>
    intro acc hacc o c h
    simp only [List.foldl_nil] at h
    refine ⟨hacc o c h, Or.inl h, by simp, ?_⟩
    intro o₀ c₀ h₀
    rw [h] at h₀
    cases h₀
    exact le_refl o
  | cons hd tl ih =>
    intro acc hacc o c h
    rw [List.foldl_cons] at h
    by_cases hcond : (decide (y - centerY hd < 0) && beats (y - centerY hd) acc) = true
    · -- the accumulator is replaced by (y - centerY hd, hd)
      have hlt : y - centerY hd < 0 := by
        have := (Bool.and_eq_true _ _).mp hcond
        exact of_decide_eq_true this.1
      have hstep : insertStep y acc hd = some (y - centerY hd, hd) := by
        unfold insertStep
        rw [if_pos hcond]
      have hacc' : ∀ o₀ c₀, insertStep y acc hd = some (o₀, c₀) →
          o₀ = y - centerY c₀ ∧ o₀ < 0 := by
        intro o₀ c₀ h₀
        rw [hstep] at h₀
        cases h₀
        exact ⟨rfl, hlt⟩
      rcases ih (insertStep y acc hd) hacc' o c h with ⟨h₁, h₂, h₃, h₄⟩
      refine ⟨h₁, ?_, ?_, ?_⟩
      · rcases h₂ with h₂ | h₂
        · rw [hstep] at h₂
          cases h₂
          exact Or.inr (List.mem_cons_self hd tl)
        · exact Or.inr (List.mem_cons_of_mem hd h₂)
      · intro e he hlt₂
        rcases List.mem_cons.mp he with rfl | he
        · exact h₄ (y - centerY e) e hstep
        · exact h₃ e he hlt₂
      · intro o₀ c₀ h₀
        have hbeats : beats (y - centerY hd) acc = true :=
          ((Bool.and_eq_true _ _).mp hcond).2
        rw [h₀] at hbeats
        have : o₀ < y - centerY hd := of_decide_eq_true hbeats
        exact le_of_lt (lt_of_lt_of_le this (h₄ (y - centerY hd) hd hstep))
    · -- the accumulator is kept unchanged
      have hstep : insertStep y acc hd = acc := by
        unfold insertStep
        rw [if_neg hcond]
      rw [hstep] at h
      rcases ih acc hacc o c h with ⟨h₁, h₂, h₃, h₄⟩
      refine ⟨h₁, ?_, ?_, h₄⟩
      · rcases h₂ with h₂ | h₂
        · exact Or.inl h₂
        · exact Or.inr (List.mem_cons_of_mem hd h₂)
      · intro e he hlt₂
        rcases List.mem_cons.mp he with rfl | he
        · -- hd has a negative offset but was rejected: acc already beats it
          have hnb : beats (y - centerY e) acc = false := by
            cases hb : beats (y - centerY e) acc with
            | false => rfl
            | true =>
              exact absurd (by simp [hb, decide_eq_true_eq, hlt₂]) hcond
          cases hacc₂ : acc with
          | none => rw [hacc₂] at hnb; simp [beats] at hnb
          | some a =>
            obtain ⟨o₀, c₀⟩ := a
            rw [hacc₂] at hnb
            have : ¬ (o₀ < y - centerY e) := by
              simpa [beats] using hnb
            exact le_trans (not_lt.mp this) (h₄ o₀ c₀ hacc₂)
        · exact h₃ e he hlt₂

theorem insertBeforeId_split :
    ∀ (l : List ChildBox) (c d : ChildBox),
      (l.map ChildBox.cid).Nodup → c ∈ l →
      ∃ l₁ l₂, l = l₁ ++ c :: l₂ ∧ insertBeforeId c.cid d l = l₁ ++ d :: c :: l₂ := by
  intro l
  induction l with
  | nil => intro c d _ hc; cases hc
  | cons hd tl ih =>
    intro c d hnd hc
    by_cases hid : hd.cid = c.cid
    · have hhd : hd = c := by
        rcases List.mem_cons.mp hc with rfl | hc₂
        · rfl
        · exfalso
          have : c.cid ∈ tl.map ChildBox.cid := List.mem_map_of_mem ChildBox.cid hc₂
          rw [← hid] at this
          exact (List.nodup_cons.mp hnd).1 this
      subst hhd
      exact ⟨[], tl, rfl, by simp [insertBeforeId, hid]⟩
    · have hc₂ : c ∈ tl := by
        rcases List.mem_cons.mp hc with rfl | hc₂
        · exact absurd rfl hid
        · exact hc₂
      obtain ⟨l₁, l₂, hsplit, hins⟩ := ih c d (List.nodup_cons.mp hnd).2 hc₂
      exact ⟨hd :: l₁, l₂, by rw [hsplit]; rfl, by simp [insertBeforeId, hid, hins]⟩

/-!
## Workspace state and the drag controller

A workspace-item element is modelled by its fields the engine reads and
writes.  activeBlock holds a direct object reference in the source; here it
is the item's identity, looked up in the item list.  Geometry the DOM
computes (getBoundingClientRect, offsetWidth/offsetHeight) is carried as a
snapshot on the item, and document.elementsFromPoint is an oracle supplied
by the environment.
-/

/-- Utils.clamp (src/js/index.js lines 513-515):
Math.max(min, Math.min(v, max)). -/
def clamp (v lo hi : Rat) : Rat := max lo (min v hi)

/-- One placed workspace-item as the engine sees it: parent is none when
item.parentElement === workspace element and some sid when the item lives
inside the slot with identity sid; styleLeft/styleTop are the style.left /
style.top pixel values; leftPercent/topPercent are the dataset attributes
(none when absent); rectLeft/rectTop/rectWidth/rectHeight snapshot
getBoundingClientRect (the width and height also standing for
offsetWidth/offsetHeight). -/
structure Item where
  id : Nat
  kind : BlockKind
  category : Category
  parent : Option Nat
  styleLeft : Rat
  styleTop : Rat
  positionRelative : Bool
  zIndex : Nat
  dragging : Bool
  leftPercent : Option Rat
  topPercent : Option Rat
  rectLeft : Rat
  rectTop : Rat
  rectWidth : Rat
  rectHeight : Rat
deriving DecidableEq

/-- The workspace: its bounding rectangle, the placed items, the drag
session (active item identity plus the captured pointer offset), and the
identities of slots currently carrying the drag-over highlight. -/
structure WsState where
  wsLeft : Rat
  wsTop : Rat
  wsWidth : Rat
  wsHeight : Rat
  items : List Item
  active : Option Nat
  offsetX : Rat
  offsetY : Rat
  highlights : List Nat
deriving DecidableEq

/-- The DOM services the engine consumes: document.elementsFromPoint. -/
structure Env where
  elementsAt : Rat → Rat → List DomElement

/-- A mouse event's client coordinates. -/
structure Pointer where
  clientX : Rat
  clientY : Rat
deriving DecidableEq

/-- The per-item body of Workspace.updateDataPercents (src/js/index.js
lines 897-902): items whose parent is the workspace element get their
dataset percents recomputed from style.left / style.top. -/
def percentsItem (w h : Rat) (it : Item) : Item :=
  if it.parent = none then
    { it with leftPercent := some (it.styleLeft / w * 100),
              topPercent := some (it.styleTop / h * 100) }
  else it

/-- Workspace.updateDataPercents (src/js/index.js lines 894-903). -/
def updateDataPercents (st : WsState) : WsState :=
  { st with items := st.items.map (percentsItem st.wsWidth st.wsHeight) }

/-- The per-item body of Workspace.updatePositions (src/js/index.js
lines 926-932): items whose parent is the workspace element are repositioned
from their dataset percents, with parseFloat(dataset.xPercent or '0')
falling back to 0 when the attribute is absent. -/
def positionsItem (w h : Rat) (it : Item) : Item :=
  if it.parent = none then
    { it with styleLeft := it.leftPercent.getD 0 / 100 * w,
              styleTop := it.topPercent.getD 0 / 100 * h }
  else it

/-- Workspace.updatePositions (src/js/index.js lines 923-933). -/
def updatePositions (st : WsState) : WsState :=
  { st with items := st.items.map (positionsItem st.wsWidth st.wsHeight) }

/-- Workspace.dragging (src/js/index.js lines 762-781): recompute the
active block's top-left from the pointer minus the captured offset and the
workspace origin, clamp both axes into the workspace, write the style,
clear every highlight and highlight the slot found under the pointer. -/
def dragging (env : Env) (e : Pointer) (st : WsState) : WsState :=
  match st.active with
  | none => st
  | some aid =>
    match st.items.find? (fun it => it.id == aid) with
    | none => st
    | some b =>
      let x := clamp (e.clientX - st.offsetX - st.wsLeft) 0 (st.wsWidth - b.rectWidth)
      let y := clamp (e.clientY - st.offsetY - st.wsTop) 0 (st.wsHeight - b.rectHeight)
      { st with
          items := st.items.map (fun it =>
            if it.id == aid then { it with styleLeft := x, styleTop := y } else it),
          highlights :=
            match findValidSlot (some ⟨b.kind, b.category⟩)
                (env.elementsAt e.clientX e.clientY) with
            | some s => [s.elemId]
            | none => [] }

/-- Workspace.dragEnd (src/js/index.js lines 786-810): re-resolve the drop
target at the probe point (rect.left + rect.width / 2, rect.top + 10); when
a slot is found the block moves into it (the position among the slot's
children, determined by getInsertAfter on the same probe y, is modelled by
insertDragged) and its styling becomes in-flow; then the z-index and
dragging marker are reset, the session is discarded, highlights are cleared
and updateDataPercents runs. -/
def dragEnd (env : Env) (st : WsState) : WsState :=
  match st.active with
  | none => st
  | some aid =>
    match st.items.find? (fun it => it.id == aid) with
    | none => st
    | some b =>
      let slotRes := findValidSlot (some ⟨b.kind, b.category⟩)
          (env.elementsAt (b.rectLeft + b.rectWidth / 2) (b.rectTop + 10))
      updateDataPercents
        { st with
            items := st.items.map (fun it =>
              if it.id == aid then
                match slotRes with
                | some s =>
                  { it with parent := some s.elemId, positionRelative := true,
                            styleLeft := 0, styleTop := 0, zIndex := 10,
                            dragging := false }
                | none => { it with zIndex := 10, dragging := false }
              else it),
            active := none,
            highlights := [] }

/-- A drop event on the workspace: the pointer position and the text/plain
payload of its data transfer (none when absent, possibly the empty
string). -/
structure DropEvent where
  clientX : Rat
  clientY : Rat
  payload : Option String

/-- The drop handler installed by Workspace.setupDrop (src/js/index.js
lines 848-870) of the canonical class-based variant.  parse stands for the
platform JSON.parse, returning none exactly on inputs where JSON.parse
throws; this variant wraps the parse in no try/catch, so a throw escapes
the handler, modelled by Except.error.  newW/newH are the rendered size of
the freshly created block element and freshId its identity. -/
def handleDropClass (parse : String → Option ItemData) (newW newH : Rat)
    (freshId : Nat) (e : DropEvent) (st : WsState) : Except Unit WsState :=
  match e.payload with
  | none => Except.ok st
  | some json =>
    if json = "" then Except.ok st
    else
      match parse json with
      | none => Except.error ()
      | some data =>
        let x := clamp (e.clientX - st.wsLeft - newW / 2) 0 (st.wsWidth - newW)
        let y := clamp (e.clientY - st.wsTop - newH / 2) 0 (st.wsHeight - newH)
        Except.ok (updateDataPercents
          { st with items := st.items ++
              [{ id := freshId, kind := createBlock data, category := data.category,
                 parent := none, styleLeft := x, styleTop := y,
                 positionRelative := false, zIndex := 10, dragging := false,
                 leftPercent := none, topPercent := none,
                 rectLeft := st.wsLeft + x, rectTop := st.wsTop + y,
                 rectWidth := newW, rectHeight := newH }] })

/-!
## Helper lemmas about clamp
-/

theorem clamp_lower (v lo hi : Rat) : lo ≤ clamp v lo hi := le_max_left _ _

theorem clamp_upper (v lo hi : Rat) (h : lo ≤ hi) : clamp v lo hi ≤ hi :=
  max_le h (min_le_right _ _)

theorem clamp_degenerate (v lo hi : Rat) (h : hi < lo) : clamp v lo hi = lo :=
  max_eq_left (le_of_lt (lt_of_le_of_lt (min_le_right v hi) h))

/-!
## Claim theorems
-/

/-- C1: during an active drag, findValidSlot(x, y) returns none when the
dragged block's isMovableToSlot() is false (a RootBlock), regardless of the
element stack under the coordinates; otherwise it returns the first
element, in topmost-first order among the elements stacked under the probe
point, that is a slot whose owning block accepts the dragged block's
category and that is not contained in the dragged block's own subtree, and
none when no such element exists. -/
theorem findValidSlot_first_valid (a : DraggedInfo) (targets : List DomElement) :
    findValidSlot (some a) targets =
      if isMovableToSlot a.kind then targets.find? (validTarget a) else none := by
  unfold findValidSlot
  cases h : isMovableToSlot a.kind with
  | false => simp [h]
  | true => simp [h, slotLoop_eq_find a targets]

/-- C2: for every category c, RootBlock.canAccept(c) and
ContainerBlock.canAccept(c) are true while SimpleBlock.canAccept(c) is
false, and isMovableToSlot() is false for RootBlock and true for
ContainerBlock and SimpleBlock. -/
theorem acceptance_and_movability_matrix :
    ∀ c : Category,
      canAccept BlockKind.root c = true ∧
      canAccept BlockKind.container c = true ∧
      canAccept BlockKind.simple c = false ∧
      isMovableToSlot BlockKind.root = false ∧
      isMovableToSlot BlockKind.container = true ∧
      isMovableToSlot BlockKind.simple = true := by decide

/-- C7: createBlock is total on block specs with ordered classification: a
spec named 'Начало' yields a RootBlock; otherwise a spec whose category is
'starts' or 'operator' yields a ContainerBlock; every other spec yields a
SimpleBlock.  Totality with no error case is inherent: createBlock is a
function into the three-constructor BlockKind. -/
theorem createBlock_ordered_classification (data : ItemData) :
    (data.name = "Начало" → createBlock data = BlockKind.root) ∧
    (data.name ≠ "Начало" →
      (data.category = Category.starts ∨ data.category = Category.operator) →
      createBlock data = BlockKind.container) ∧
    (data.name ≠ "Начало" → data.category ≠ Category.starts →
      data.category ≠ Category.operator → createBlock data = BlockKind.simple) := by
  unfold createBlock
  refine ⟨fun h => by simp [h], fun h hc => by simp [h, hc], fun h hc₁ hc₂ => ?_⟩
  rw [if_neg h, if_neg]
  rintro (h₁ | h₂)
  · exact hc₁ h₁
  · exact hc₂ h₂

/-- Witness for C7 at the three spec shapes named by the spec's test
property. -/
theorem createBlock_ordered_classification_witness :
    createBlock ⟨"Начало", "старт", Category.starts⟩ = BlockKind.root ∧
    createBlock ⟨"Цикл", "цикл", Category.operator⟩ = BlockKind.container ∧
    createBlock ⟨"Переменная", "знач", Category.variableCat⟩ = BlockKind.simple :=
  ⟨(createBlock_ordered_classification _).1 rfl,
   (createBlock_ordered_classification _).2.1 (by decide) (Or.inr rfl),
   (createBlock_ordered_classification _).2.2 (by decide) (by decide) (by decide)⟩

/-- C3: a block is never made a descendant of itself.  For any acyclic
nesting forest, any dragged block and any element stack whose
insideDragged fields agree with DOM containment (a slot element is inside
the dragged element exactly when its owner's parent chain reaches the
dragged block), the slot the hit-tester resolves is never inside the
dragged block's own subtree, and reparenting the dragged block under that
slot's owner keeps the forest acyclic. -/
theorem hit_testing_preserves_acyclicity
    (p : Nat → Option Nat) (a : DraggedInfo) (dId : Nat)
    (targets : List DomElement) (el : DomElement) (o : SlotOwner)
    (hac : Acyclic p)
    (hcoh : ∀ e ∈ targets, ∀ ow, e.owner = some ow →
        (e.insideDragged = true ↔ Relation.ReflTransGen (pstep p) ow.id dId))
    (hfind : findValidSlot (some a) targets = some el)
    (hown : el.owner = some o) :
    el.insideDragged = false ∧
    ¬ Relation.ReflTransGen (pstep p) o.id dId ∧
    Acyclic (reparent p dId o.id) := by
  have hfind₂ : targets.find? (validTarget a) = some el := by
    have hfind₁ : (if isMovableToSlot a.kind then slotLoop a targets else none) = some el :=
      hfind
    split at hfind₁
    · rw [slotLoop_eq_find] at hfind₁
      exact hfind₁
    · exact Option.noConfusion hfind₁
  have hmem : el ∈ targets := List.mem_of_find?_eq_some hfind₂
  have hvalid : validTarget a el = true := List.find?_some hfind₂
  have hinside : el.insideDragged = false := by
    unfold validTarget at hvalid
    have h := (Bool.and_eq_true _ _).mp hvalid
    simpa using h.2
  have hnot : ¬ Relation.ReflTransGen (pstep p) o.id dId := by
    intro hrel
    have h := (hcoh el hmem o hown).mpr hrel
    rw [hinside] at h
    exact Bool.noConfusion h
  exact ⟨hinside, hnot, reparent_acyclic p dId o.id hac hnot⟩

/-- A concrete two-block forest for the C3 witness: block 2 is nested in
block 1, block 3 is free. -/
def p0 : Nat → Option Nat := fun x => if x = 2 then some 1 else none

/-- The dragged block of the C3 witness: a container of category
'operator'. -/
def drag0 : DraggedInfo := ⟨BlockKind.container, Category.operator⟩

/-- The element stack of the C3 witness: the slot of block 1, not inside
the dragged block. -/
def slotEl0 : DomElement := ⟨true, some ⟨1, BlockKind.container⟩, false, 7⟩

theorem p0_no_chain_one_three : ¬ Relation.ReflTransGen (pstep p0) 1 3 := by
  intro h
  rcases Relation.ReflTransGen.cases_head h with h₁ | ⟨c, hc, -⟩
  · exact absurd h₁ (by decide)
  · unfold pstep p0 at hc
    simp at hc

/-- Witness for C3: dragging block 3 over the slot of block 1 in the
concrete forest. -/
theorem hit_testing_preserves_acyclicity_witness :
    slotEl0.insideDragged = false ∧
    ¬ Relation.ReflTransGen (pstep p0) 1 3 ∧
    Acyclic (reparent p0 3 1) := by
  refine hit_testing_preserves_acyclicity p0 drag0 3 [slotEl0] slotEl0
    ⟨1, BlockKind.container⟩ ?_ ?_ ?_ ?_
  · refine acyclic_of_desc p0 ?_
    intro x y h
    unfold p0 at h
    split at h
    · cases h
      omega
    · exact Option.noConfusion h
  · intro e he ow how
    have he₂ : e = slotEl0 := by simpa using he
    subst he₂
    have how₂ : ow = ⟨1, BlockKind.container⟩ := (Option.some_inj.mp how).symm
    subst how₂
    constructor
    · intro hfalse
      exact absurd hfalse (by decide)
    · intro hrel
      exact absurd hrel p0_no_chain_one_three
  · rfl
  · rfl

/-- The single child of the C4 counterexample: its vertical center is 10. -/
def cbox0 : ChildBox := ⟨0, 0, 20⟩

/-- C4 counterexample: at probe y = 5 the only child has vertical center
10, which is below the probe, so no child has its center above the probe
and the claim's rule returns none (append at end); getInsertAfter instead
returns that child. -/
theorem getInsertAfter_claim_counterexample :
    getInsertAfter [cbox0] 5 = some cbox0 ∧ ¬ (centerY cbox0 < 5) := by
  constructor
  · norm_num [getInsertAfter, insertStep, beats, centerY, cbox0]
  · norm_num [centerY, cbox0]

/-- C4 (amended): getInsertAfter(slot, y) returns the child minimizing
|y − centerY| subject to y < centerY — the child whose vertical center is
nearest BELOW the probe, not above as the claim states — and the dragged
block is inserted immediately before that child; when no child has its
center below the probe (probe below all children, or slot empty) it
returns none and the dragged block is appended at the end. -/
theorem getInsertAfter_nearest_below (l : List ChildBox) (y : Rat) (d : ChildBox) :
    (getInsertAfter l y = none ↔ ∀ c ∈ l, centerY c ≤ y) ∧
    (getInsertAfter l y = none → insertDragged l d y = l ++ [d]) ∧
    (∀ c, getInsertAfter l y = some c →
      c ∈ l ∧ y < centerY c ∧
      (∀ e ∈ l, y < centerY e → centerY c ≤ centerY e) ∧
      ((l.map ChildBox.cid).Nodup →
        ∃ l₁ l₂, l = l₁ ++ c :: l₂ ∧ insertDragged l d y = l₁ ++ d :: c :: l₂)) := by
  have hnone : getInsertAfter l y = none ↔ ∀ c ∈ l, centerY c ≤ y := by
    unfold getInsertAfter
    rw [Option.map_eq_none']
    rw [foldl_insertStep_none]
    simp
  refine ⟨hnone, ?_, ?_⟩
  · intro h
    unfold insertDragged
    rw [h]
  · intro c hc
    obtain ⟨⟨o, cc⟩, hfold, hsnd⟩ : ∃ a, l.foldl (insertStep y) none = some a ∧ a.2 = c := by
      unfold getInsertAfter at hc
      exact Option.map_eq_some'.mp hc
    simp only at hsnd
    subst hsnd
    have hmain := foldl_insertStep_some y l none
      (by intro o₀ c₀ h₀; exact Option.noConfusion h₀) o cc hfold
    obtain ⟨⟨ho, hneg⟩, hmem, hmax, -⟩ := hmain
    have hmem₂ : cc ∈ l := by
      rcases hmem with h | h
      · exact Option.noConfusion h
      · exact h
    have hy : y < centerY cc := by
      rw [ho] at hneg
      linarith
    refine ⟨hmem₂, hy, ?_, ?_⟩
    · intro e he hye
      have h := hmax e he (by linarith)
      rw [ho] at h
      linarith
    · intro hnd
      obtain ⟨l₁, l₂, hsplit, hins⟩ := insertBeforeId_split l cc d hnd hmem₂
      refine ⟨l₁, l₂, hsplit, ?_⟩
      unfold insertDragged
      rw [hc]
      exact hins

/-- First child of the C4 witness: vertical center 2. -/
def cb1 : ChildBox := ⟨1, 0, 4⟩

/-- Second child of the C4 witness: vertical center 12. -/
def cb2 : ChildBox := ⟨2, 10, 4⟩

/-- The dragged box of the C4 witness. -/
def cbd : ChildBox := ⟨9, 0, 0⟩

/-- Witness for the amended C4: at probe y = 5 between the two children's
centers 2 and 12, the dragged box lands between them, immediately before
the child whose center is nearest below the probe. -/
theorem getInsertAfter_nearest_below_witness :
    cb2 ∈ [cb1, cb2] ∧ (5 : Rat) < centerY cb2 ∧
    insertDragged [cb1, cb2] cbd 5 = [cb1, cbd, cb2] := by
  have h := (getInsertAfter_nearest_below [cb1, cb2] 5 cbd).2.2 cb2
    (by norm_num [getInsertAfter, insertStep, beats, centerY, cb1, cb2])
  refine ⟨h.1, h.2.1, ?_⟩
  norm_num [insertDragged, getInsertAfter, insertStep, beats, centerY,
    insertBeforeId, cb1, cb2, cbd]

/-- C6: on every pointer move during a drag, the active block's new
top-left is computed as pointer − capturedOffset − workspaceOrigin and then
clamped on both axes, so the written position satisfies
0 ≤ x ≤ workspaceWidth − blockWidth and 0 ≤ y ≤ workspaceHeight −
blockHeight whenever the block fits, even when the raw position is far
outside the workspace; when the block is wider or taller than the
workspace the lower clamp bound wins and the coordinate is pinned to 0. -/
theorem dragging_clamps (env : Env) (e : Pointer) (st : WsState) (aid : Nat) (b : Item)
    (ha : st.active = some aid)
    (hb : st.items.find? (fun it => it.id == aid) = some b) :
    ({ b with
        styleLeft := clamp (e.clientX - st.offsetX - st.wsLeft) 0 (st.wsWidth - b.rectWidth),
        styleTop := clamp (e.clientY - st.offsetY - st.wsTop) 0 (st.wsHeight - b.rectHeight) }
      ∈ (dragging env e st).items) ∧
    0 ≤ clamp (e.clientX - st.offsetX - st.wsLeft) 0 (st.wsWidth - b.rectWidth) ∧
    (b.rectWidth ≤ st.wsWidth →
      clamp (e.clientX - st.offsetX - st.wsLeft) 0 (st.wsWidth - b.rectWidth) ≤
        st.wsWidth - b.rectWidth) ∧
    (st.wsWidth < b.rectWidth →
      clamp (e.clientX - st.offsetX - st.wsLeft) 0 (st.wsWidth - b.rectWidth) = 0) ∧
    0 ≤ clamp (e.clientY - st.offsetY - st.wsTop) 0 (st.wsHeight - b.rectHeight) ∧
    (b.rectHeight ≤ st.wsHeight →
      clamp (e.clientY - st.offsetY - st.wsTop) 0 (st.wsHeight - b.rectHeight) ≤
        st.wsHeight - b.rectHeight) ∧
    (st.wsHeight < b.rectHeight →
      clamp (e.clientY - st.offsetY - st.wsTop) 0 (st.wsHeight - b.rectHeight) = 0) := by
  have hmem : b ∈ st.items := List.mem_of_find?_eq_some hb
  have hid : (b.id == aid) = true := by
    have h := List.find?_some hb
    simpa using h
  refine ⟨?_, clamp_lower _ _ _,
    fun h => clamp_upper _ _ _ (sub_nonneg.mpr h),
    fun h => clamp_degenerate _ _ _ (sub_neg.mpr h),
    clamp_lower _ _ _,
    fun h => clamp_upper _ _ _ (sub_nonneg.mpr h),
    fun h => clamp_degenerate _ _ _ (sub_neg.mpr h)⟩
  simp only [dragging, ha, hb]
  have h := List.mem_map_of_mem (fun it =>
    if it.id == aid then
      { it with
          styleLeft := clamp (e.clientX - st.offsetX - st.wsLeft) 0 (st.wsWidth - b.rectWidth),
          styleTop := clamp (e.clientY - st.offsetY - st.wsTop) 0 (st.wsHeight - b.rectHeight) }
    else it) hmem
  simpa [hid] using h

/-- An environment whose element stack is empty at every point. -/
def env0 : Env := ⟨fun _ _ => []⟩

/-- The free simple block of the C6 witness. -/
def item6 : Item :=
  { id := 5, kind := BlockKind.simple, category := Category.variableCat, parent := none,
    styleLeft := 10, styleTop := 10, positionRelative := false, zIndex := 10,
    dragging := true, leftPercent := none, topPercent := none,
    rectLeft := 10, rectTop := 10, rectWidth := 30, rectHeight := 20 }

/-- The workspace of the C6 witness: 200 × 100 at the viewport origin,
block 5 being dragged with captured offset (3, 4). -/
def st6 : WsState :=
  { wsLeft := 0, wsTop := 0, wsWidth := 200, wsHeight := 100, items := [item6],
    active := some 5, offsetX := 3, offsetY := 4, highlights := [] }

/-- Witness for C6: a pointer far right of and above the workspace pins the
block to x = 200 − 30 = 170 and y = 0. -/
theorem dragging_clamps_witness :
    { item6 with styleLeft := 170, styleTop := 0 } ∈
      (dragging env0 ⟨500, -50⟩ st6).items := by
  have hx : clamp ((500 : Rat) - st6.offsetX - st6.wsLeft) 0 (st6.wsWidth - item6.rectWidth)
      = 170 := by
    norm_num [clamp, min_def, max_def, st6, item6]
  have hy : clamp ((-50 : Rat) - st6.offsetY - st6.wsTop) 0 (st6.wsHeight - item6.rectHeight)
      = 0 := by
    norm_num [clamp, min_def, max_def, st6, item6]
  have h := (dragging_clamps env0 ⟨500, -50⟩ st6 5 item6 rfl rfl).1
  rw [hx, hy] at h
  exact h

/-- C5: at drag end the drop target is re-resolved from the dragged
block's current bounding box at probe point
(rect.left + rect.width / 2, rect.top + 10) — dragEnd receives no pointer
position at all.  When a slot is found the block is inserted into it and
its styling switches to in-flow (position relative, left and top zeroed);
otherwise the block keeps its last clamped pixel position, which is
re-persisted as workspace-relative percentages when its parent is the
workspace.  In both outcomes the dragging marker is removed, every drop
highlight is cleared and the drag session is discarded. -/
theorem dragEnd_resolves_from_box (env : Env) (st : WsState) (aid : Nat) (b : Item)
    (ha : st.active = some aid)
    (hb : st.items.find? (fun it => it.id == aid) = some b) :
    (dragEnd env st).active = none ∧
    (dragEnd env st).highlights = [] ∧
    (findValidSlot (some ⟨b.kind, b.category⟩)
        (env.elementsAt (b.rectLeft + b.rectWidth / 2) (b.rectTop + 10)) = none →
      { b with zIndex := 10, dragging := false,
               leftPercent := if b.parent = none
                 then some (b.styleLeft / st.wsWidth * 100) else b.leftPercent,
               topPercent := if b.parent = none
                 then some (b.styleTop / st.wsHeight * 100) else b.topPercent }
        ∈ (dragEnd env st).items) ∧
    (∀ s, findValidSlot (some ⟨b.kind, b.category⟩)
        (env.elementsAt (b.rectLeft + b.rectWidth / 2) (b.rectTop + 10)) = some s →
      { b with parent := some s.elemId, positionRelative := true,
               styleLeft := 0, styleTop := 0, zIndex := 10, dragging := false }
        ∈ (dragEnd env st).items) := by
  have hmem : b ∈ st.items := List.mem_of_find?_eq_some hb
  have hid : (b.id == aid) = true := by
    have h := List.find?_some hb
    simpa using h
  refine ⟨?_, ?_, ?_, ?_⟩
  · simp only [dragEnd, ha, hb, updateDataPercents]
  · simp only [dragEnd, ha, hb, updateDataPercents]
  · intro hnone
    simp only [dragEnd, ha, hb, hnone, updateDataPercents]
    refine List.mem_map.mpr
      ⟨(fun it => if it.id == aid then { it with zIndex := 10, dragging := false } else it) b,
       List.mem_map_of_mem _ hmem, ?_⟩
    simp only [hid, if_true]
    by_cases hp : b.parent = none
    · simp [percentsItem, hp]
    · simp [percentsItem, hp]
  · intro s hs
    simp only [dragEnd, ha, hb, hs, updateDataPercents]
    refine List.mem_map.mpr
      ⟨(fun it =>
          if it.id == aid then
            { it with parent := some s.elemId, positionRelative := true,
                      styleLeft := 0, styleTop := 0, zIndex := 10, dragging := false }
          else it) b,
       List.mem_map_of_mem _ hmem, ?_⟩
    simp only [hid, if_true]
    simp [percentsItem]

/-- The free simple block of the C5 witness. -/
def item5 : Item :=
  { id := 5, kind := BlockKind.simple, category := Category.variableCat, parent := none,
    styleLeft := 10, styleTop := 10, positionRelative := false, zIndex := 1000,
    dragging := true, leftPercent := none, topPercent := none,
    rectLeft := 10, rectTop := 10, rectWidth := 30, rectHeight := 20 }

/-- The workspace of the C5 witness: 200 × 100, block 5 being dragged,
one slot highlighted. -/
def st5 : WsState :=
  { wsLeft := 0, wsTop := 0, wsWidth := 200, wsHeight := 100, items := [item5],
    active := some 5, offsetX := 3, offsetY := 4, highlights := [7] }

/-- Witness for C5: with an empty element stack no slot is found, so block
5 stays at (10, 10), its percents are re-persisted to (5, 10), the
dragging marker and highlight are gone and the session is discarded. -/
theorem dragEnd_resolves_from_box_witness :
    (dragEnd env0 st5).active = none ∧
    (dragEnd env0 st5).highlights = [] ∧
    { item5 with zIndex := 10, dragging := false,
                 leftPercent := some 5, topPercent := some 10 }
      ∈ (dragEnd env0 st5).items := by
  have h := dragEnd_resolves_from_box env0 st5 5 item5 rfl rfl
  refine ⟨h.1, h.2.1, ?_⟩
  have h₃ := h.2.2.1 rfl
  have hl : (if item5.parent = none
      then some (item5.styleLeft / st5.wsWidth * 100) else item5.leftPercent) = some 5 := by
    norm_num [item5, st5]
  have ht : (if item5.parent = none
      then some (item5.styleTop / st5.wsHeight * 100) else item5.topPercent) = some 10 := by
    norm_num [item5, st5]
  rw [hl, ht] at h₃
  exact h₃

/-- A JSON.parse oracle for the C8 counterexample.  The platform JSON.parse
throws a SyntaxError on the probed payload "not valid json"; the oracle
records that by returning none there (its values elsewhere are never
used). -/
def jsonParse0 : String → Option ItemData := fun _ => none

/-- An empty workspace for the C8 counterexample and witness. -/
def st8 : WsState :=
  { wsLeft := 0, wsTop := 0, wsWidth := 200, wsHeight := 100, items := [],
    active := none, offsetX := 0, offsetY := 0, highlights := [] }

/-- C8 counterexample: a drop whose payload is not valid JSON makes the
uncaught JSON.parse exception escape the class-based workspace drop
handler, contradicting the claim that the error is caught locally and no
exception escapes. -/
theorem handleDrop_uncaught_counterexample :
    handleDropClass jsonParse0 30 20 0 ⟨0, 0, some "not valid json"⟩ st8 =
      Except.error () := rfl

/-- C8 (amended): a drop whose payload is absent or empty is swallowed by
the early return and the drop is a no-op, the workspace unchanged; but a
non-empty payload that is not valid JSON makes JSON.parse throw with no
local catch in the class-based drop handler, so no block is created and
the workspace is unchanged only because the exception escapes the
handler before any mutation. -/
theorem handleDrop_malformed (parse : String → Option ItemData) (newW newH : Rat)
    (fid : Nat) (e : DropEvent) (st : WsState) :
    (e.payload = none → handleDropClass parse newW newH fid e st = Except.ok st) ∧
    (e.payload = some "" → handleDropClass parse newW newH fid e st = Except.ok st) ∧
    (∀ s, e.payload = some s → s ≠ "" → parse s = none →
      handleDropClass parse newW newH fid e st = Except.error ()) := by
  refine ⟨?_, ?_, ?_⟩
  · intro h
    simp only [handleDropClass, h]
  · intro h
    simp [handleDropClass, h]
  · intro s hs hne hp
    simp only [handleDropClass, hs, hp, if_neg hne]

/-- Witness for the amended C8 at its three concrete malformed payloads. -/
theorem handleDrop_malformed_witness :
    handleDropClass jsonParse0 30 20 0 ⟨0, 0, none⟩ st8 = Except.ok st8 ∧
    handleDropClass jsonParse0 30 20 0 ⟨0, 0, some ""⟩ st8 = Except.ok st8 ∧
    handleDropClass jsonParse0 30 20 0 ⟨0, 0, some "oops"⟩ st8 = Except.error () :=
  ⟨(handleDrop_malformed jsonParse0 30 20 0 ⟨0, 0, none⟩ st8).1 rfl,
   (handleDrop_malformed jsonParse0 30 20 0 ⟨0, 0, some ""⟩ st8).2.1 rfl,
   (handleDrop_malformed jsonParse0 30 20 0 ⟨0, 0, some "oops"⟩ st8).2.2 "oops" rfl
     (by decide) rfl⟩

/-- C9: on a workspace resize, every block whose parent is the workspace
element is repositioned by linear rescaling of its stored percentages —
style.left becomes leftPercent / 100 × width and style.top becomes
topPercent / 100 × height — and a block missing the percent attributes
falls back to the default percentage (0 in this variant) instead of
erroring. -/
theorem updatePositions_rescales (st : WsState) (it : Item)
    (hmem : it ∈ st.items) (hp : it.parent = none) :
    { it with styleLeft := it.leftPercent.getD 0 / 100 * st.wsWidth,
              styleTop := it.topPercent.getD 0 / 100 * st.wsHeight }
      ∈ (updatePositions st).items := by
  unfold updatePositions
  have h := List.mem_map_of_mem (positionsItem st.wsWidth st.wsHeight) hmem
  simpa [positionsItem, hp] using h

/-- The free block of the C9 witness, stored at (25%, 50%). -/
def item9 : Item :=
  { id := 1, kind := BlockKind.container, category := Category.operator, parent := none,
    styleLeft := 200, styleTop := 300, positionRelative := false, zIndex := 10,
    dragging := false, leftPercent := some 25, topPercent := some 50,
    rectLeft := 200, rectTop := 300, rectWidth := 30, rectHeight := 20 }

/-- A free block with no stored percent attributes for the C9 witness. -/
def item9b : Item :=
  { id := 2, kind := BlockKind.simple, category := Category.variableCat, parent := none,
    styleLeft := 40, styleTop := 40, positionRelative := false, zIndex := 10,
    dragging := false, leftPercent := none, topPercent := none,
    rectLeft := 40, rectTop := 40, rectWidth := 30, rectHeight := 20 }

/-- The workspace of the C9 witness, already resized to 400 × 300. -/
def st9 : WsState :=
  { wsLeft := 0, wsTop := 0, wsWidth := 400, wsHeight := 300, items := [item9, item9b],
    active := none, offsetX := 0, offsetY := 0, highlights := [] }

/-- Witness for C9: after resizing the workspace to 400 × 300, the block at
(25%, 50%) lands at pixel (100, 150), and the block without percent
attributes falls back to the default and lands at (0, 0). -/
theorem updatePositions_rescales_witness :
    { item9 with styleLeft := 100, styleTop := 150 } ∈ (updatePositions st9).items ∧
    { item9b with styleLeft := 0, styleTop := 0 } ∈ (updatePositions st9).items := by
  constructor
  · have h := updatePositions_rescales st9 item9 (by simp [st9]) rfl
    have hl : (item9.leftPercent.getD 0 / 100 * st9.wsWidth : Rat) = 100 := by
      norm_num [item9, st9]
    have ht : (item9.topPercent.getD 0 / 100 * st9.wsHeight : Rat) = 150 := by
      norm_num [item9, st9]
    rw [hl, ht] at h
    exact h
  · have h := updatePositions_rescales st9 item9b (by simp [st9]) rfl
    have hl : (item9b.leftPercent.getD 0 / 100 * st9.wsWidth : Rat) = 0 := by
      norm_num [item9b, st9]
    have ht : (item9b.topPercent.getD 0 / 100 * st9.wsHeight : Rat) = 0 := by
      norm_num [item9b, st9]
    rw [hl, ht] at h
    exact h

/-- C10: the resize repositioning pass and the percentage-persistence pass
modify only blocks whose direct parent is the workspace element: a nested
block (one living inside a slot) is left entirely unchanged — in
particular its left/top styling and its stored percent attributes — by
both updatePositions and updateDataPercents. -/
theorem nested_blocks_untouched (st : WsState) (i : Nat) (it : Item)
    (hget : st.items[i]? = some it) (hp : it.parent ≠ none) :
    (updatePositions st).items[i]? = some it ∧
    (updateDataPercents st).items[i]? = some it := by
  constructor
  · unfold updatePositions
    simp only [List.getElem?_map, hget, Option.map_some']
    simp [positionsItem, hp]
  · unfold updateDataPercents
    simp only [List.getElem?_map, hget, Option.map_some']
    simp [percentsItem, hp]

/-- The nested block of the C10 witness, inside slot 7. -/
def item10 : Item :=
  { id := 3, kind := BlockKind.simple, category := Category.eventCat, parent := some 7,
    styleLeft := 0, styleTop := 0, positionRelative := true, zIndex := 10,
    dragging := false, leftPercent := some 12, topPercent := some 34,
    rectLeft := 60, rectTop := 60, rectWidth := 30, rectHeight := 20 }

/-- The workspace of the C10 witness. -/
def st10 : WsState :=
  { wsLeft := 0, wsTop := 0, wsWidth := 400, wsHeight := 300, items := [item10],
    active := none, offsetX := 0, offsetY := 0, highlights := [] }

/-- Witness for C10 on the concrete nested block. -/
theorem nested_blocks_untouched_witness :
    (updatePositions st10).items[0]? = some item10 ∧
    (updateDataPercents st10).items[0]? = some item10 :=
  nested_blocks_untouched st10 0 item10 rfl (by decide)

end BlockCode
